import Mathlib

/-!
Verification of the Korean nonce-word stimulus pipeline
(`generate.py` / `kor.py` / `stratify.py`).

The first part shallowly embeds the three source files:

* the phoneme inventories and the monosyllable/disyllable generators of
  `generate.py` (the generators of `kor.py` are identical up to the extra
  romanization column, so a single embedding covers both);
* the stratified sampler of `stratify.py`, with the stateful
  `random.shuffle` calls abstracted into a shuffle oracle that is assumed
  to permute its argument;
* the lexicon filter of `generate.py`'s `main`, with the external
  romanizer abstracted into a function-valued parameter;
* the romanization attribute of `Monosyllable`/`Bisyllable`, with the
  external `korean_romanizer` call modelled as a fallible function
  (`Except` models a Python exception).

The second part states and proves the specification claims.
-/

set_option maxRecDepth 40000

/-- Phoneme inventory, from `generate.py` line 23. -/
def PLAIN_STOP_ONSETS : List String := ["p", "t", "c", "k"]

/-- Phoneme inventory, from `generate.py` line 24. -/
def ASPIRATED_STOP_ONSETS : List String := ["pʰ", "tʰ", "cʰ", "kʰ"]

/-- Phoneme inventory, from `generate.py` line 25. -/
def STOP_ONSETS : List String := PLAIN_STOP_ONSETS ++ ASPIRATED_STOP_ONSETS

/-- Phoneme inventory, from `generate.py` line 26. -/
def NASAL_ONSETS : List String := ["m", "n"]

/-- Phoneme inventory, from `generate.py` line 27. -/
def SIMPLE_ONSETS : List String := STOP_ONSETS ++ ["s"] ++ NASAL_ONSETS

/-- Phoneme inventory, from `generate.py` line 30. -/
def FRONT_VOWELS : List String := ["i", "a"]

/-- Phoneme inventory, from `generate.py` line 31. -/
def BACK_VOWELS : List String := ["o", "u"]

/-- Phoneme inventory, from `generate.py` line 32. -/
def VOWELS : List String := FRONT_VOWELS ++ BACK_VOWELS

/-- Phoneme inventory, from `generate.py` line 34. -/
def NASAL_CODAS : List String := ["m", "n", "ŋ"]

/-- Phoneme inventory, from `generate.py` line 35. -/
def STOP_CODAS : List String := ["p̚", "t̚", "k̚"]

/-- Phoneme inventory, from `generate.py` line 36. -/
def CODAS : List String := NASAL_CODAS ++ STOP_CODAS

/-- Python's `s.startswith(pre)`, character-wise on the code points. -/
def startswith (s pre : String) : Bool := pre.data.isPrefixOf s.data

/-- Python's `s[0]` as a one-character string (the sources only apply it to
nonempty strings). -/
def first (s : String) : String := String.mk (s.data.take 1)

/-- The `Monosyllable` dataclass of `generate.py` lines 74-79 (spelling
attributes, which delegate to external libraries, are modelled separately). -/
structure Monosyllable where
  onset : String
  nucleus : String
  coda : Option String := none
  shape : Option String := none
deriving DecidableEq

/-- The `Bisyllable` dataclass of `generate.py` lines 131-135. -/
structure Bisyllable where
  syl1 : Monosyllable
  syl2 : Monosyllable
  shape : String
deriving DecidableEq

/-- Python's `itertools.permutations(l, 2)`: all ordered pairs of entries at
distinct positions, in lexicographic position order. -/
def perms2 (l : List String) : List (String × String) :=
  l.enum.flatMap fun ia =>
    (l.enum.filterMap fun jb => if jb.1 = ia.1 then none else some jb.2).map
      fun b => (ia.2, b)

/-- Python's `itertools.product(l1, l2)`. -/
def prod2 (l1 l2 : List String) : List (String × String) :=
  l1.flatMap fun a => l2.map fun b => (a, b)

/-- The coda test `coda.startswith(x[0])` used by every generator loop
(`generate.py` lines 174, 182, 191, 200, 215, 227, 241, 255): a coda survives
the `continue` iff this is false. -/
def codaAllowed (coda against : String) : Bool := !(startswith coda (first against))

/-- The codas surviving the `continue` filter of a coda loop over `CODAS`. -/
def allowedCodas (against : String) : List String := CODAS.filter (codaAllowed · against)

/-- The onset-pair test of `generate.py` lines 210 and 222: a pair survives the
`continue` iff neither onset is a prefix of the other. -/
def okPair (p : String × String) : Bool := !(startswith p.1 p.2 || startswith p.2 p.1)

/-- The `_monosyllables` generator of `generate.py` lines 168-202, as the list
of its yields (four families: plain, glide, prenasal, postnasal). -/
def monosyllables : List Monosyllable :=
  (SIMPLE_ONSETS.flatMap fun onset => VOWELS.flatMap fun vowel =>
    (allowedCodas onset).map fun coda =>
      Monosyllable.mk onset vowel (some coda) (some "CVC"))
  ++ (STOP_ONSETS.flatMap fun onset => FRONT_VOWELS.flatMap fun vowel =>
    (allowedCodas onset).map fun coda =>
      Monosyllable.mk onset ("w" ++ vowel) (some coda) (some "CwVC"))
  ++ (STOP_ONSETS.flatMap fun stop => NASAL_ONSETS.flatMap fun nasal =>
    VOWELS.flatMap fun vowel =>
      ((STOP_CODAS.filter (codaAllowed · stop)).map fun coda =>
        Monosyllable.mk (nasal ++ stop) vowel (some coda) (some "NCVC")))
  ++ (STOP_ONSETS.flatMap fun stop => NASAL_ONSETS.flatMap fun nasal =>
    VOWELS.flatMap fun vowel =>
      ((STOP_CODAS.filter (codaAllowed · stop)).map fun coda =>
        Monosyllable.mk (stop ++ nasal) vowel (some coda) (some "CNVC")))

/-- The value of the local `syl2` after the coda loop of `generate.py` lines
214-217: the loop overwrites `syl2` once per surviving coda, so afterwards
`syl2` holds the record built from the last surviving coda.  (For every onset
of the inventory the surviving-coda list is nonempty — `allowedCodas_ne_nil`
below — so the value never leaks in from a previous iteration of the enclosing
loops and the `Option` is always `some`.) -/
def plainSyl2 (onset2 vowel2 : String) : Option Monosyllable :=
  ((allowedCodas onset2).map fun coda =>
    Monosyllable.mk onset2 vowel2 (some coda) (some "CVC")).getLast?

/-- The plain family of `_disyllables` (`generate.py` lines 209-218).  Note the
single `yield` sits outside the coda loop, so each qualifying onset/vowel
combination yields exactly once, with `syl2` as described at `plainSyl2`. -/
def plainDisyllables : List Bisyllable :=
  ((perms2 SIMPLE_ONSETS).filter okPair).flatMap fun p =>
    (perms2 VOWELS).flatMap fun v =>
      ((plainSyl2 p.2 v.2).map fun syl2 =>
        Bisyllable.mk (Monosyllable.mk p.1 v.1 none (some "CV")) syl2 "CVCVC").toList

/-- The glide family of `_disyllables` (`generate.py` lines 221-230); here the
`yield` is inside the coda loop. -/
def glideDisyllables : List Bisyllable :=
  ((perms2 SIMPLE_ONSETS).filter okPair).flatMap fun p =>
    (prod2 FRONT_VOWELS VOWELS).flatMap fun v =>
      (allowedCodas p.2).map fun coda =>
        Bisyllable.mk (Monosyllable.mk p.1 ("w" ++ v.1) none (some "CwV"))
          (Monosyllable.mk p.2 v.2 (some coda) (some "CVC")) "CwVCVC"

/-- The prenasal family of `_disyllables` (`generate.py` lines 232-244). -/
def prenasalDisyllables : List Bisyllable :=
  STOP_ONSETS.flatMap fun stop => NASAL_ONSETS.flatMap fun nasal =>
    (perms2 VOWELS).flatMap fun v =>
      (SIMPLE_ONSETS.filter fun o2 => !(startswith o2 stop)).flatMap fun o2 =>
        (allowedCodas o2).map fun coda =>
          Bisyllable.mk (Monosyllable.mk (nasal ++ stop) v.1 none (some "NCV"))
            (Monosyllable.mk o2 v.2 (some coda) (some "CVC")) "NCVCVC"

/-- The postnasal family of `_disyllables` (`generate.py` lines 246-258). -/
def postnasalDisyllables : List Bisyllable :=
  STOP_ONSETS.flatMap fun stop => NASAL_ONSETS.flatMap fun nasal =>
    (perms2 VOWELS).flatMap fun v =>
      (SIMPLE_ONSETS.filter fun o2 => !(startswith o2 stop)).flatMap fun o2 =>
        (allowedCodas o2).map fun coda =>
          Bisyllable.mk (Monosyllable.mk (stop ++ nasal) v.1 none (some "CNV"))
            (Monosyllable.mk o2 v.2 (some coda) (some "CVC")) "CNVCVC"

/-- The `_disyllables` generator of `generate.py` lines 205-258, as the list of
its yields. -/
def disyllables : List Bisyllable :=
  plainDisyllables ++ glideDisyllables ++ prenasalDisyllables ++ postnasalDisyllables

/-- The governing stop of a syllable's onset, as the specification describes
it: the onset itself for atomic-onset shapes, the stop member of the cluster
for the `NCVC`/`CNVC` shapes (the nasal member is a single character, so the
stop is the onset without its first, respectively last, character). -/
def govStop (m : Monosyllable) : String :=
  if m.shape = some "NCVC" then String.mk (m.onset.data.drop 1)
  else if m.shape = some "CNVC" then String.mk (m.onset.data.dropLast)
  else m.onset

/-- An input row of `stratify.py`'s `_proc_file` (`csv.DictReader` row of an
annotated table; the unified column schema of the two annotated tables). -/
structure RawRow where
  onset1 : String
  nucleus1 : String
  onset2 : String
  nucleus2 : String
  coda : String
  shape : String
  lexicality : String
  memo : String
deriving DecidableEq

/-- A row after `_proc_file`'s transformation: `lexicality` and `memo` deleted,
`transcription` added. -/
structure ProcRow where
  onset1 : String
  nucleus1 : String
  onset2 : String
  nucleus2 : String
  coda : String
  shape : String
  transcription : String
deriving DecidableEq

/-- The row transformation of `stratify.py` lines 32-41: drop `lexicality` and
`memo` (absent from `ProcRow`), add the concatenated `transcription`. -/
def procRow (r : RawRow) : ProcRow :=
  { onset1 := r.onset1, nucleus1 := r.nucleus1, onset2 := r.onset2,
    nucleus2 := r.nucleus2, coda := r.coda, shape := r.shape,
    transcription := r.onset1 ++ r.nucleus1 ++ r.onset2 ++ r.nucleus2 ++ r.coda }

/-- One iteration of the `_proc_file` loop (`stratify.py` lines 29-42): skip
the row unless `lexicality` is exactly `"FALSE"`, else yield `(shape, row)`. -/
def procOne (r : RawRow) : Option (String × ProcRow) :=
  if r.lexicality ≠ "FALSE" then none else some (r.shape, procRow r)

/-- The `_proc_file` generator of `stratify.py` lines 27-42, as the list of its
yields. -/
def procFile (rows : List RawRow) : List (String × ProcRow) := rows.filterMap procOne

/-- One `by_shape[shape].append(row)` step on an insertion-ordered dictionary
(`collections.defaultdict(list)`), represented as an association list. -/
def addToGroups : List (String × List ProcRow) → String → ProcRow →
    List (String × List ProcRow)
  | [], shape, row => [(shape, [row])]
  | (s, rs) :: rest, shape, row =>
    if s = shape then (s, rs ++ [row]) :: rest
    else (s, rs) :: addToGroups rest shape row

/-- The grouping loops of `stratify.py` lines 49-53. -/
def groupByShape (pairs : List (String × ProcRow)) : List (String × List ProcRow) :=
  pairs.foldl (fun g p => addToGroups g p.1 p.2) []

/-- The special-cased shape list of `stratify.py` line 57. -/
def MONO_SHAPES : List String := ["CVC", "CwVC", "CNVC", "NCVC"]

/-- The eight shape tags produced by the generators. -/
def ALL_SHAPES : List String :=
  ["CVC", "CwVC", "CNVC", "NCVC", "CVCVC", "CwVCVC", "NCVCVC", "CNVCVC"]

/-- The per-shape draw size of `stratify.py` lines 56-60. -/
def sizeFor (shape : String) : Nat := if shape ∈ MONO_SHAPES then 5 else 10

/-- The sampling loop of `stratify.py` lines 54-64.  `shuffle` stands for the
seeded `random.shuffle` (assumed elsewhere to permute its argument); the
failed `assert` of line 61 is the `Except.error` case, carrying the offending
shape and its row count. -/
def sampleGroups (shuffle : List ProcRow → List ProcRow) :
    List (String × List ProcRow) → Except (String × Nat) (List ProcRow × List ProcRow)
  | [] => Except.ok ([], [])
  | (shape, entries) :: rest =>
    let size := sizeFor shape
    if entries.length < size * 2 then Except.error (shape, entries.length)
    else
      match sampleGroups shuffle rest with
      | Except.error e => Except.error e
      | Except.ok (l1, l2) =>
        let sh := shuffle entries
        Except.ok ((sh.take size) ++ l1, ((sh.drop size).take size) ++ l2)

/-- The `main` of `stratify.py` up to the point where the two lists are ready
to be written (lines 45-66): process both annotated tables, group by shape,
sample, then shuffle each output list.  An `Except.error` models the
`AssertionError` abort, which happens before either output file is opened. -/
def stratifyMain (shuffle : List ProcRow → List ProcRow) (monoRows diRows : List RawRow) :
    Except (String × Nat) (List ProcRow × List ProcRow) :=
  match sampleGroups shuffle (groupByShape (procFile monoRows ++ procFile diRows)) with
  | Except.error e => Except.error e
  | Except.ok (l1, l2) => Except.ok (shuffle l1, shuffle l2)

/-- The lexicon-filtering loop of `generate.py` lines 302-311, abstracted over
the romanization attribute `rom` (an external computation).  Returns the
written entries in order together with the final `filtered` count. -/
def lexiconFilter (lexicon : List String) (rom : Bisyllable → String) :
    List Bisyllable → List Bisyllable × Nat
  | [] => ([], 0)
  | e :: rest =>
    let acc := lexiconFilter lexicon rom rest
    if !(rom e == "") && lexicon.contains (rom e) then (acc.1, acc.2 + 1)
    else (e :: acc.1, acc.2)

/-- The `romanization` property of `Monosyllable`/`Bisyllable` (`generate.py`
lines 114-116 and 149-151): it returns `_romanize(self.hangul)` with no
emptiness test and no exception handling, so the external romanizer — modelled
as a fallible function, `Except.error` standing for a raised exception — is
invoked on the Hangul string unconditionally and its outcome is returned
unchanged. -/
def romanizationAttr (romanizer : String → Except Unit String) (hangul : String) :
    Except Unit String := romanizer hangul

/-- The `hangul` property of `Bisyllable` (`generate.py` lines 141-147), as a
function of the two syllables' `hangul` values: empty if either part is empty,
else the concatenation. -/
def bisyllableHangul (hangul1 hangul2 : String) : String :=
  if hangul1 = "" ∨ hangul2 = "" then "" else hangul1 ++ hangul2

/-! ### Helper lemmas about the generator model -/

/-- Every onset of the simple inventory leaves at least one coda available, so
the `syl2` local of the plain disyllable loop is always freshly assigned. -/
lemma allowedCodas_ne_nil : ∀ o ∈ SIMPLE_ONSETS, allowedCodas o ≠ [] := by decide

lemma mem_plainDisyllables {b : Bisyllable} (h : b ∈ plainDisyllables) :
    ∃ p, p ∈ (perms2 SIMPLE_ONSETS).filter okPair ∧ ∃ v, v ∈ perms2 VOWELS ∧
      ∃ s2, plainSyl2 p.2 v.2 = some s2 ∧
        b = Bisyllable.mk (Monosyllable.mk p.1 v.1 none (some "CV")) s2 "CVCVC" := by
  simp only [plainDisyllables, List.mem_flatMap, Option.mem_toList, Option.mem_def,
    Option.map_eq_some'] at h
  obtain ⟨p, hp, v, hv, s2, hs2, hb⟩ := h
  exact ⟨p, hp, v, hv, s2, hs2, hb.symm⟩

lemma plainSyl2_eq_some {o2 v2 : String} {s2 : Monosyllable}
    (h : plainSyl2 o2 v2 = some s2) :
    ∃ coda, (allowedCodas o2).getLast? = some coda ∧
      s2 = Monosyllable.mk o2 v2 (some coda) (some "CVC") := by
  rw [plainSyl2, List.getLast?_map] at h
  cases hc : (allowedCodas o2).getLast? with
  | none => rw [hc] at h; simp at h
  | some c =>
    rw [hc] at h
    simp only [Option.map_some', Option.some.injEq] at h
    exact ⟨c, rfl, h.symm⟩

lemma mem_glideDisyllables {b : Bisyllable} (h : b ∈ glideDisyllables) :
    ∃ p, p ∈ (perms2 SIMPLE_ONSETS).filter okPair ∧ ∃ v, v ∈ prod2 FRONT_VOWELS VOWELS ∧
      ∃ coda, coda ∈ allowedCodas p.2 ∧
        b = Bisyllable.mk (Monosyllable.mk p.1 ("w" ++ v.1) none (some "CwV"))
          (Monosyllable.mk p.2 v.2 (some coda) (some "CVC")) "CwVCVC" := by
  simp only [glideDisyllables, List.mem_flatMap, List.mem_map] at h
  obtain ⟨p, hp, v, hv, coda, hc, hb⟩ := h
  exact ⟨p, hp, v, hv, coda, hc, hb.symm⟩

lemma mem_prenasalDisyllables {b : Bisyllable} (h : b ∈ prenasalDisyllables) :
    ∃ stop, stop ∈ STOP_ONSETS ∧ ∃ nasal, nasal ∈ NASAL_ONSETS ∧
      ∃ v, v ∈ perms2 VOWELS ∧
        ∃ o2, o2 ∈ SIMPLE_ONSETS ∧ startswith o2 stop = false ∧
          ∃ coda, coda ∈ allowedCodas o2 ∧
            b = Bisyllable.mk (Monosyllable.mk (nasal ++ stop) v.1 none (some "NCV"))
              (Monosyllable.mk o2 v.2 (some coda) (some "CVC")) "NCVCVC" := by
  simp only [prenasalDisyllables, List.mem_flatMap, List.mem_map, List.mem_filter,
    Bool.not_eq_true'] at h
  obtain ⟨stop, hstop, nasal, hnasal, v, hv, o2, ⟨ho2, ho2s⟩, coda, hc, hb⟩ := h
  exact ⟨stop, hstop, nasal, hnasal, v, hv, o2, ho2, ho2s, coda, hc, hb.symm⟩

lemma mem_postnasalDisyllables {b : Bisyllable} (h : b ∈ postnasalDisyllables) :
    ∃ stop, stop ∈ STOP_ONSETS ∧ ∃ nasal, nasal ∈ NASAL_ONSETS ∧
      ∃ v, v ∈ perms2 VOWELS ∧
        ∃ o2, o2 ∈ SIMPLE_ONSETS ∧ startswith o2 stop = false ∧
          ∃ coda, coda ∈ allowedCodas o2 ∧
            b = Bisyllable.mk (Monosyllable.mk (stop ++ nasal) v.1 none (some "CNV"))
              (Monosyllable.mk o2 v.2 (some coda) (some "CVC")) "CNVCVC" := by
  simp only [postnasalDisyllables, List.mem_flatMap, List.mem_map, List.mem_filter,
    Bool.not_eq_true'] at h
  obtain ⟨stop, hstop, nasal, hnasal, v, hv, o2, ⟨ho2, ho2s⟩, coda, hc, hb⟩ := h
  exact ⟨stop, hstop, nasal, hnasal, v, hv, o2, ho2, ho2s, coda, hc, hb.symm⟩


lemma okPair_eq_true {p : String × String} (h : okPair p = true) :
    startswith p.1 p.2 = false ∧ startswith p.2 p.1 = false := by
  simpa [okPair] using h

lemma mem_allowedCodas {c o : String} (h : c ∈ allowedCodas o) :
    startswith c (first o) = false := by
  have h2 := (List.mem_filter.mp h).2
  simpa [codaAllowed] using h2

lemma govStop_cvc (o n : String) (c : Option String) :
    govStop (Monosyllable.mk o n c (some "CVC")) = o := by
  simp [govStop]

lemma mem_disyllables_cases {b : Bisyllable} (h : b ∈ disyllables) :
    b ∈ plainDisyllables ∨ b ∈ glideDisyllables ∨
      b ∈ prenasalDisyllables ∨ b ∈ postnasalDisyllables := by
  simp only [disyllables, List.mem_append] at h
  tauto

lemma mem_disyllables_of_prenasal {b : Bisyllable} (h : b ∈ prenasalDisyllables) :
    b ∈ disyllables := by
  simp only [disyllables, List.mem_append]
  tauto

lemma perms2_vowels_ne : ∀ v ∈ perms2 VOWELS, v.1 ≠ v.2 := by decide

lemma glide_nucleus_ne : ∀ v ∈ prod2 FRONT_VOWELS VOWELS, ("w" ++ v.1) ≠ v.2 := by decide

lemma prenasal_onset_not_pre :
    ∀ stop ∈ STOP_ONSETS, ∀ nasal ∈ NASAL_ONSETS, ∀ o2 ∈ SIMPLE_ONSETS,
      startswith o2 (nasal ++ stop) = false := by decide

lemma postnasal_onset_not_pre :
    ∀ stop ∈ STOP_ONSETS, ∀ nasal ∈ NASAL_ONSETS, ∀ o2 ∈ SIMPLE_ONSETS,
      startswith o2 (stop ++ nasal) = false := by decide

/-- C1 (amended): across all four disyllable families the first syllable's
onset is never a prefix of the second's; the converse exclusion — the second
onset not being a prefix of the first — is enforced only in the plain and
glide families, whose onset pairs pass the mutual-prefix filter. -/
theorem c1_theorem : ∀ b ∈ disyllables,
    startswith b.syl2.onset b.syl1.onset = false ∧
    ((b.shape = "CVCVC" ∨ b.shape = "CwVCVC") →
      startswith b.syl1.onset b.syl2.onset = false) := by
  intro b hb
  rcases mem_disyllables_cases hb with h | h | h | h
  · obtain ⟨p, hp, v, _, s2, hs2, rfl⟩ := mem_plainDisyllables h
    obtain ⟨coda, _, rfl⟩ := plainSyl2_eq_some hs2
    obtain ⟨h1, h2⟩ := okPair_eq_true (List.mem_filter.mp hp).2
    exact ⟨h2, fun _ => h1⟩
  · obtain ⟨p, hp, v, _, coda, _, rfl⟩ := mem_glideDisyllables h
    obtain ⟨h1, h2⟩ := okPair_eq_true (List.mem_filter.mp hp).2
    exact ⟨h2, fun _ => h1⟩
  · obtain ⟨stop, hstop, nasal, hnasal, v, _, o2, ho2, _, coda, _, rfl⟩ :=
      mem_prenasalDisyllables h
    refine ⟨prenasal_onset_not_pre stop hstop nasal hnasal o2 ho2, ?_⟩
    rintro (h | h) <;> simp at h
  · obtain ⟨stop, hstop, nasal, hnasal, v, _, o2, ho2, _, coda, _, rfl⟩ :=
      mem_postnasalDisyllables h
    refine ⟨postnasal_onset_not_pre stop hstop nasal hnasal o2 ho2, ?_⟩
    rintro (h | h) <;> simp at h

/-- C1 witness: the theorem's conclusion at a concrete plain-family
disyllable. -/
theorem c1_witness :
    Bisyllable.mk (Monosyllable.mk "p" "i" none (some "CV"))
      (Monosyllable.mk "t" "a" (some "k̚") (some "CVC")) "CVCVC" ∈ disyllables ∧
    (startswith "t" "p" = false ∧
      ((("CVCVC" : String) = "CVCVC" ∨ ("CVCVC" : String) = "CwVCVC") →
        startswith "p" "t" = false)) := by
  refine ⟨by decide, ?_⟩
  exact c1_theorem (Bisyllable.mk (Monosyllable.mk "p" "i" none (some "CV"))
    (Monosyllable.mk "t" "a" (some "k̚") (some "CVC")) "CVCVC") (by decide)

/-- C1 counterexample: the prenasal family yields a disyllable whose second
onset "m" is a prefix of its first onset "mp", refuting the claimed invariant
as stated. -/
theorem c1_counterexample :
    Bisyllable.mk (Monosyllable.mk "mp" "i" none (some "NCV"))
      (Monosyllable.mk "m" "a" (some "n") (some "CVC")) "NCVCVC" ∈ disyllables ∧
    startswith "mp" "m" = true := by
  refine ⟨mem_disyllables_of_prenasal (by decide), by decide⟩

/-- C10: every generated disyllable has distinct first and second nuclei: the
plain, prenasal and postnasal families draw ordered pairs of distinct vowels,
and the glide family's first nucleus carries the "w" marker that no bare
second nucleus has. -/
theorem c10_theorem : ∀ b ∈ disyllables, b.syl1.nucleus ≠ b.syl2.nucleus := by
  intro b hb
  rcases mem_disyllables_cases hb with h | h | h | h
  · obtain ⟨p, _, v, hv, s2, hs2, rfl⟩ := mem_plainDisyllables h
    obtain ⟨coda, _, rfl⟩ := plainSyl2_eq_some hs2
    exact perms2_vowels_ne v hv
  · obtain ⟨p, _, v, hv, coda, _, rfl⟩ := mem_glideDisyllables h
    exact glide_nucleus_ne v hv
  · obtain ⟨stop, _, nasal, _, v, hv, o2, _, _, coda, _, rfl⟩ := mem_prenasalDisyllables h
    exact perms2_vowels_ne v hv
  · obtain ⟨stop, _, nasal, _, v, hv, o2, _, _, coda, _, rfl⟩ := mem_postnasalDisyllables h
    exact perms2_vowels_ne v hv

/-- C10 witness: the nucleus-distinctness conclusion at a concrete generated
disyllable. -/
theorem c10_witness :
    Bisyllable.mk (Monosyllable.mk "p" "i" none (some "CV"))
      (Monosyllable.mk "t" "a" (some "k̚") (some "CVC")) "CVCVC" ∈ disyllables ∧
    ("i" : String) ≠ "a" := by
  refine ⟨by decide, ?_⟩
  exact c10_theorem (Bisyllable.mk (Monosyllable.mk "p" "i" none (some "CV"))
    (Monosyllable.mk "t" "a" (some "k̚") (some "CVC")) "CVCVC") (by decide)

lemma mono_codaOK : monosyllables.all
    (fun m => match m.coda with
      | some c => !(startswith c (first (govStop m)))
      | none => true) = true := by decide

lemma disyllable_syl2_codaOK : ∀ b ∈ disyllables,
    ∀ c, b.syl2.coda = some c → startswith c (first (govStop b.syl2)) = false := by
  intro b hb
  rcases mem_disyllables_cases hb with h | h | h | h
  · obtain ⟨p, _, v, _, s2, hs2, rfl⟩ := mem_plainDisyllables h
    obtain ⟨coda, hlast, rfl⟩ := plainSyl2_eq_some hs2
    intro c hc
    simp only [Option.some.injEq] at hc
    subst hc
    rw [govStop_cvc]
    exact mem_allowedCodas (List.mem_of_getLast?_eq_some hlast)
  · obtain ⟨p, _, v, _, coda, hcoda, rfl⟩ := mem_glideDisyllables h
    intro c hc
    simp only [Option.some.injEq] at hc
    subst hc
    rw [govStop_cvc]
    exact mem_allowedCodas hcoda
  · obtain ⟨stop, _, nasal, _, v, _, o2, _, _, coda, hcoda, rfl⟩ :=
      mem_prenasalDisyllables h
    intro c hc
    simp only [Option.some.injEq] at hc
    subst hc
    rw [govStop_cvc]
    exact mem_allowedCodas hcoda
  · obtain ⟨stop, _, nasal, _, v, _, o2, _, _, coda, hcoda, rfl⟩ :=
      mem_postnasalDisyllables h
    intro c hc
    simp only [Option.some.injEq] at hc
    subst hc
    rw [govStop_cvc]
    exact mem_allowedCodas hcoda

/-- C3: in every generated monosyllable, and in the second (coda-bearing)
syllable of every generated disyllable, the coda never begins with the first
character of the governing stop of the onset (the onset itself for atomic
shapes, the stop member for the `NCVC`/`CNVC` cluster shapes); in particular
the syllable (onset "p", nucleus "a", coda "p̚", shape "CVC") appears nowhere
in generator output. -/
theorem c3_theorem :
    (∀ m ∈ monosyllables, ∀ c, m.coda = some c →
      startswith c (first (govStop m)) = false)
    ∧ (∀ b ∈ disyllables, ∀ c, b.syl2.coda = some c →
      startswith c (first (govStop b.syl2)) = false)
    ∧ Monosyllable.mk "p" "a" (some "p̚") (some "CVC") ∉ monosyllables
    ∧ ∀ b ∈ disyllables, b.syl2 ≠ Monosyllable.mk "p" "a" (some "p̚") (some "CVC") := by
  refine ⟨?_, disyllable_syl2_codaOK, by decide, ?_⟩
  · intro m hm c hc
    have hall := List.all_eq_true.mp mono_codaOK m hm
    rw [hc] at hall
    simpa using hall
  · intro b hb heq
    have hc := disyllable_syl2_codaOK b hb "p̚" (by rw [heq])
    rw [heq] at hc
    simp [govStop_cvc] at hc
    exact absurd hc (by decide)

/-- C3 witness: the exclusion conclusion at the first generated monosyllable
and at a concrete generated disyllable. -/
theorem c3_witness :
    (Monosyllable.mk "p" "i" (some "m") (some "CVC") ∈ monosyllables ∧
      startswith "m" (first (govStop (Monosyllable.mk "p" "i" (some "m") (some "CVC")))) = false)
    ∧ (Bisyllable.mk (Monosyllable.mk "p" "i" none (some "CV"))
        (Monosyllable.mk "t" "a" (some "k̚") (some "CVC")) "CVCVC" ∈ disyllables ∧
      startswith "k̚" (first (govStop (Monosyllable.mk "t" "a" (some "k̚") (some "CVC")))) = false) := by
  constructor
  · refine ⟨by decide, ?_⟩
    exact c3_theorem.1 (Monosyllable.mk "p" "i" (some "m") (some "CVC")) (by decide) "m" rfl
  · refine ⟨by decide, ?_⟩
    exact c3_theorem.2.1 (Bisyllable.mk (Monosyllable.mk "p" "i" none (some "CV"))
      (Monosyllable.mk "t" "a" (some "k̚") (some "CVC")) "CVCVC") (by decide) "k̚" rfl

lemma countP_flatMap {α β : Type} (p : β → Bool) (F : α → List β) (l : List α) :
    (l.flatMap F).countP p = (l.map fun a => (F a).countP p).sum := by
  induction l with
  | nil => simp
  | cons a t ih => simp [List.countP_append, ih]

lemma sum_map_single {α : Type} [BEq α] [LawfulBEq α] {l : List α} {f : α → Nat} {a : α}
    (ha : l.count a = 1) (h0 : ∀ x ∈ l, x ≠ a → f x = 0) :
    (l.map f).sum = f a := by
  induction l with
  | nil => simp at ha
  | cons x t ih =>
    by_cases hx : x = a
    · subst hx
      rw [List.count_cons_self] at ha
      have hnot : x ∉ t := List.count_eq_zero.mp (by omega)
      have hz : ∀ y ∈ t, f y = 0 := fun y hy =>
        h0 y (List.mem_cons_of_mem _ hy) (fun hya => hnot (hya ▸ hy))
      have hsum : (t.map f).sum = 0 := List.sum_eq_zero (by
        intro y hy
        obtain ⟨z, hz2, rfl⟩ := List.mem_map.mp hy
        exact hz z hz2)
      simp [hsum]
    · rw [List.count_cons_of_ne (fun hax => hx hax.symm)] at ha
      rw [List.map_cons, List.sum_cons, h0 x (List.mem_cons_self _ _) hx,
        ih ha (fun y hy => h0 y (List.mem_cons_of_mem _ hy)), Nat.zero_add]

lemma perms2_count_simple :
    ∀ a ∈ SIMPLE_ONSETS, ∀ b ∈ SIMPLE_ONSETS, a ≠ b →
      (perms2 SIMPLE_ONSETS).count (a, b) = 1 := by decide

lemma perms2_count_vowels :
    ∀ a ∈ VOWELS, ∀ b ∈ VOWELS, a ≠ b →
      (perms2 VOWELS).count (a, b) = 1 := by decide

lemma mem_plainInner {p : String × String} {b : Bisyllable}
    (h : b ∈ (perms2 VOWELS).flatMap fun v =>
      ((plainSyl2 p.2 v.2).map fun syl2 =>
        Bisyllable.mk (Monosyllable.mk p.1 v.1 none (some "CV")) syl2 "CVCVC").toList) :
    ∃ v, v ∈ perms2 VOWELS ∧ ∃ coda, (allowedCodas p.2).getLast? = some coda ∧
      b = Bisyllable.mk (Monosyllable.mk p.1 v.1 none (some "CV"))
        (Monosyllable.mk p.2 v.2 (some coda) (some "CVC")) "CVCVC" := by
  simp only [List.mem_flatMap, Option.mem_toList, Option.mem_def,
    Option.map_eq_some'] at h
  obtain ⟨v, hv, s2, hs2, hb⟩ := h
  obtain ⟨coda, hlast, rfl⟩ := plainSyl2_eq_some hs2
  exact ⟨v, hv, coda, hlast, hb.symm⟩

/-- The row of the plain disyllable family addressed by claim C2: a yielded
record with the given two onsets and two nuclei. -/
def c2match (o1 o2 v1 v2 : String) (b : Bisyllable) : Bool :=
  b.syl1.onset == o1 && b.syl2.onset == o2 &&
    b.syl1.nucleus == v1 && b.syl2.nucleus == v2

/-- C2: in the plain (CVCVC) family, each ordered pair of distinct,
mutually-non-prefix simple onsets combined with each ordered pair of distinct
vowels is yielded exactly once, and the single yield carries as its second
coda the last coda of the iteration order m, n, ŋ, p̚, t̚, k̚ that does not
begin with the second onset's first character. -/
theorem c2_theorem (o1 o2 v1 v2 : String)
    (ho1 : o1 ∈ SIMPLE_ONSETS) (ho2 : o2 ∈ SIMPLE_ONSETS) (hne : o1 ≠ o2)
    (h12 : startswith o1 o2 = false) (h21 : startswith o2 o1 = false)
    (hv1 : v1 ∈ VOWELS) (hv2 : v2 ∈ VOWELS) (hvne : v1 ≠ v2) :
    plainDisyllables.countP (c2match o1 o2 v1 v2) = 1 ∧
    ∀ b ∈ plainDisyllables, b.syl1.onset = o1 → b.syl2.onset = o2 →
      b.syl1.nucleus = v1 → b.syl2.nucleus = v2 →
      b.syl2.coda = (allowedCodas o2).getLast? := by
  constructor
  · have hok : okPair (o1, o2) = true := by simp [okPair, h12, h21]
    have hcount : ((perms2 SIMPLE_ONSETS).filter okPair).count (o1, o2) = 1 := by
      rw [List.count_filter hok]
      exact perms2_count_simple o1 ho1 o2 ho2 hne
    have hzero : ∀ p ∈ (perms2 SIMPLE_ONSETS).filter okPair, p ≠ (o1, o2) →
        ((perms2 VOWELS).flatMap fun v =>
          ((plainSyl2 p.2 v.2).map fun syl2 =>
            Bisyllable.mk (Monosyllable.mk p.1 v.1 none (some "CV")) syl2
              "CVCVC").toList).countP (c2match o1 o2 v1 v2) = 0 := by
      intro p hp hpne
      rw [List.countP_eq_zero]
      intro b hb
      obtain ⟨v, hv, coda, hlast, rfl⟩ := mem_plainInner hb
      intro hmatch
      simp only [c2match, Bool.and_eq_true, beq_iff_eq] at hmatch
      exact hpne (by cases p; simp_all)
    rw [plainDisyllables, countP_flatMap, sum_map_single hcount hzero]
    rw [countP_flatMap, sum_map_single (perms2_count_vowels v1 hv1 v2 hv2 hvne) ?_]
    · obtain ⟨coda, hlast⟩ : ∃ c, (allowedCodas o2).getLast? = some c :=
        Option.isSome_iff_exists.mp
          (List.getLast?_isSome.mpr (allowedCodas_ne_nil o2 ho2))
      rw [plainSyl2, List.getLast?_map, hlast]
      simp [c2match]
    · intro v hv hvne2
      rw [List.countP_eq_zero]
      intro b hb
      simp only [Option.mem_toList, Option.mem_def, Option.map_eq_some'] at hb
      obtain ⟨s2, hs2, rfl⟩ := hb
      obtain ⟨coda, hlast, rfl⟩ := plainSyl2_eq_some hs2
      intro hmatch
      simp only [c2match, Bool.and_eq_true, beq_iff_eq] at hmatch
      exact hvne2 (by cases v; simp_all)
  · intro b hb h1 h2 h3 h4
    obtain ⟨p, hp, v, hv, s2, hs2, rfl⟩ := mem_plainDisyllables hb
    obtain ⟨coda, hlast, rfl⟩ := plainSyl2_eq_some hs2
    have hp2 : p.2 = o2 := h2
    rw [show (Bisyllable.mk (Monosyllable.mk p.1 v.1 none (some "CV"))
      (Monosyllable.mk p.2 v.2 (some coda) (some "CVC")) "CVCVC").syl2.coda
        = some coda from rfl, ← hp2, hlast]

/-- C2 witness: the hypotheses and the exactly-once conclusion at the concrete
onset pair ("p", "t") and vowel pair ("i", "a"). -/
theorem c2_witness :
    ("p" ∈ SIMPLE_ONSETS ∧ "t" ∈ SIMPLE_ONSETS ∧ ("p" : String) ≠ "t" ∧
      startswith "p" "t" = false ∧ startswith "t" "p" = false ∧
      "i" ∈ VOWELS ∧ "a" ∈ VOWELS ∧ ("i" : String) ≠ "a") ∧
    plainDisyllables.countP (c2match "p" "t" "i" "a") = 1 := by
  refine ⟨by decide, ?_⟩
  have h := c2_theorem "p" "t" "i" "a" (by decide) (by decide) (by decide) (by decide)
    (by decide) (by decide) (by decide) (by decide)
  exact h.1

/-! ### The stratified sampler -/

/-- C7: a row passes `_proc_file` iff its `lexicality` field is exactly
"FALSE"; the yielded record keeps the phonemic columns and the shape, lacks
`lexicality`/`memo` (absent from `ProcRow` by construction), and carries the
left-to-right concatenated transcription. -/
theorem c7_theorem (r : RawRow) :
    (procOne r = some (r.shape, procRow r) ↔ r.lexicality = "FALSE") ∧
    (procOne r = none ↔ r.lexicality ≠ "FALSE") ∧
    (procRow r).transcription =
      r.onset1 ++ r.nucleus1 ++ r.onset2 ++ r.nucleus2 ++ r.coda ∧
    (procRow r).onset1 = r.onset1 ∧ (procRow r).nucleus1 = r.nucleus1 ∧
    (procRow r).onset2 = r.onset2 ∧ (procRow r).nucleus2 = r.nucleus2 ∧
    (procRow r).coda = r.coda ∧ (procRow r).shape = r.shape ∧
    procFile [r] = (procOne r).toList := by
  by_cases h : r.lexicality = "FALSE" <;>
    simp [procOne, procFile, procRow, h, List.filterMap]

/-- C7 witness: the filtering equivalences at a concrete retained row and a
concrete rejected row. -/
theorem c7_witness :
    (procOne (RawRow.mk "p" "a" "t" "i" "n" "CVCVC" "FALSE" "") =
      some ("CVCVC", procRow (RawRow.mk "p" "a" "t" "i" "n" "CVCVC" "FALSE" "")) ∧
      (procRow (RawRow.mk "p" "a" "t" "i" "n" "CVCVC" "FALSE" "")).transcription = "patin") ∧
    procOne (RawRow.mk "p" "a" "t" "i" "n" "CVCVC" "TRUE" "") = none := by
  refine ⟨⟨?_, ?_⟩, ?_⟩
  · exact (c7_theorem (RawRow.mk "p" "a" "t" "i" "n" "CVCVC" "FALSE" "")).1.mpr rfl
  · rw [(c7_theorem (RawRow.mk "p" "a" "t" "i" "n" "CVCVC" "FALSE" "")).2.2.1]
    rfl
  · exact (c7_theorem (RawRow.mk "p" "a" "t" "i" "n" "CVCVC" "TRUE" "")).2.1.mpr
      (by decide)

lemma sampleGroups_error_iff (shuffle : List ProcRow → List ProcRow)
    (groups : List (String × List ProcRow)) :
    (∃ e, sampleGroups shuffle groups = Except.error e) ↔
      ∃ g ∈ groups, g.2.length < sizeFor g.1 * 2 := by
  induction groups with
  | nil => simp [sampleGroups]
  | cons g rest ih =>
    obtain ⟨shape, entries⟩ := g
    rw [sampleGroups]
    by_cases hlen : entries.length < sizeFor shape * 2
    · simp only [if_pos hlen]
      constructor
      · intro _
        exact ⟨(shape, entries), List.mem_cons_self _ _, hlen⟩
      · intro _
        exact ⟨(shape, entries.length), rfl⟩
    · simp only [if_neg hlen]
      cases hrest : sampleGroups shuffle rest with
      | error e =>
        simp only []
        constructor
        · intro _
          obtain ⟨g2, hg2, hg2len⟩ := ih.mp ⟨e, hrest⟩
          exact ⟨g2, List.mem_cons_of_mem _ hg2, hg2len⟩
        · intro _
          exact ⟨e, rfl⟩
      | ok pair =>
        simp only []
        constructor
        · rintro ⟨e, he⟩
          exact absurd he (by simp)
        · rintro ⟨g2, hg2, hg2len⟩
          rcases List.mem_cons.mp hg2 with rfl | hg2'
          · exact absurd hg2len hlen
          · obtain ⟨e, he⟩ := ih.mpr ⟨g2, hg2', hg2len⟩
            rw [he] at hrest
            exact absurd hrest (by simp)

lemma sampleGroups_error_mem (shuffle : List ProcRow → List ProcRow)
    (groups : List (String × List ProcRow)) (s : String) (n : Nat)
    (h : sampleGroups shuffle groups = Except.error (s, n)) :
    ∃ rs, (s, rs) ∈ groups ∧ rs.length = n ∧ n < sizeFor s * 2 := by
  induction groups with
  | nil => simp [sampleGroups] at h
  | cons g rest ih =>
    obtain ⟨shape, entries⟩ := g
    rw [sampleGroups] at h
    by_cases hlen : entries.length < sizeFor shape * 2
    · rw [if_pos hlen] at h
      obtain ⟨rfl, rfl⟩ : shape = s ∧ entries.length = n := by
        simpa [Prod.ext_iff] using h
      exact ⟨entries, List.mem_cons_self _ _, rfl, hlen⟩
    · rw [if_neg hlen] at h
      cases hrest : sampleGroups shuffle rest with
      | error e =>
        rw [hrest] at h
        simp only [Except.error.injEq] at h
        subst h
        obtain ⟨rs, hmem, hrs, hn⟩ := ih hrest
        exact ⟨rs, List.mem_cons_of_mem _ hmem, hrs, hn⟩
      | ok pair =>
        rw [hrest] at h
        simp at h

lemma stratifyMain_error_iff (shuffle : List ProcRow → List ProcRow)
    (monoRows diRows : List RawRow) (e : String × Nat) :
    stratifyMain shuffle monoRows diRows = Except.error e ↔
      sampleGroups shuffle (groupByShape (procFile monoRows ++ procFile diRows)) =
        Except.error e := by
  rw [stratifyMain]
  cases h : sampleGroups shuffle (groupByShape (procFile monoRows ++ procFile diRows)) with
  | error e2 => simp
  | ok p => obtain ⟨l1, l2⟩ := p; simp

/-- C6: the sampler aborts — reporting the offending shape and its available
row count — iff some shape group of retained rows has fewer than twice its
draw size; the abort (a failed `assert` in the grouping loop) precedes the
opening of either output file, which the model reflects by the `error`
result carrying no output lists. -/
theorem c6_theorem (shuffle : List ProcRow → List ProcRow)
    (monoRows diRows : List RawRow) :
    ((∃ g ∈ groupByShape (procFile monoRows ++ procFile diRows),
        g.2.length < sizeFor g.1 * 2) ↔
      ∃ e, stratifyMain shuffle monoRows diRows = Except.error e) ∧
    ∀ s n, stratifyMain shuffle monoRows diRows = Except.error (s, n) →
      ∃ rs, (s, rs) ∈ groupByShape (procFile monoRows ++ procFile diRows) ∧
        rs.length = n ∧ n < sizeFor s * 2 := by
  constructor
  · rw [show (∃ e, stratifyMain shuffle monoRows diRows = Except.error e) ↔
        ∃ e, sampleGroups shuffle (groupByShape (procFile monoRows ++ procFile diRows)) =
          Except.error e from
      exists_congr fun e => stratifyMain_error_iff shuffle monoRows diRows e]
    exact (sampleGroups_error_iff shuffle _).symm
  · intro s n h
    exact sampleGroups_error_mem shuffle _ s n
      ((stratifyMain_error_iff shuffle monoRows diRows (s, n)).mp h)

/-- C6 witness: with a single "CVC" group of nine retained rows (draw size 5,
so twice the draw size is not met) the iff's forward direction produces an
abort. -/
theorem c6_witness :
    (∃ g ∈ groupByShape (procFile
        (List.replicate 9 (RawRow.mk "p" "a" "" "" "n" "CVC" "FALSE" "")) ++ procFile []),
      g.2.length < sizeFor g.1 * 2) ∧
    ∃ e, stratifyMain id
      (List.replicate 9 (RawRow.mk "p" "a" "" "" "n" "CVC" "FALSE" "")) [] =
        Except.error e := by
  refine ⟨by decide, ?_⟩
  exact (c6_theorem id
    (List.replicate 9 (RawRow.mk "p" "a" "" "" "n" "CVC" "FALSE" "")) []).1.mp (by decide)

lemma procFile_shape {rows : List RawRow} : ∀ p ∈ procFile rows, p.2.shape = p.1 := by
  intro p hp
  obtain ⟨r, _, hr⟩ := List.mem_filterMap.mp hp
  rw [procOne] at hr
  by_cases h : r.lexicality = "FALSE"
  · rw [if_neg (by simpa using h)] at hr
    obtain rfl := Option.some.inj hr
    rfl
  · rw [if_pos h] at hr
    cases hr

lemma addToGroups_shape_inv {g : List (String × List ProcRow)} {s : String} {r : ProcRow}
    (hg : ∀ q ∈ g, ∀ x ∈ q.2, x.shape = q.1) (hr : r.shape = s) :
    ∀ q ∈ addToGroups g s r, ∀ x ∈ q.2, x.shape = q.1 := by
  induction g with
  | nil =>
    intro q hq x hx
    simp only [addToGroups, List.mem_singleton] at hq
    subst hq
    simp only [List.mem_singleton] at hx
    subst hx
    exact hr
  | cons g0 rest ih =>
    obtain ⟨s0, rs0⟩ := g0
    intro q hq x hx
    rw [addToGroups] at hq
    by_cases hs : s0 = s
    · rw [if_pos hs] at hq
      rcases List.mem_cons.mp hq with rfl | hq'
      · rcases List.mem_append.mp hx with hx' | hx'
        · exact hg (s0, rs0) (List.mem_cons_self _ _) x hx'
        · rw [List.mem_singleton] at hx'
          subst hx'
          rw [hr, hs]
      · exact hg q (List.mem_cons_of_mem _ hq') x hx
    · rw [if_neg hs] at hq
      rcases List.mem_cons.mp hq with rfl | hq'
      · exact hg (s0, rs0) (List.mem_cons_self _ _) x hx
      · exact ih (fun q' hq2 => hg q' (List.mem_cons_of_mem _ hq2)) q hq' x hx

lemma groupByShape_shape_inv {pairs : List (String × ProcRow)}
    (hp : ∀ p ∈ pairs, p.2.shape = p.1) :
    ∀ q ∈ groupByShape pairs, ∀ x ∈ q.2, x.shape = q.1 := by
  suffices h : ∀ (ps : List (String × ProcRow)) (g : List (String × List ProcRow)),
      (∀ p ∈ ps, p.2.shape = p.1) → (∀ q ∈ g, ∀ x ∈ q.2, x.shape = q.1) →
      ∀ q ∈ ps.foldl (fun g p => addToGroups g p.1 p.2) g, ∀ x ∈ q.2, x.shape = q.1 by
    exact h pairs [] hp (by simp)
  intro ps
  induction ps with
  | nil => intro g _ hg; simpa using hg
  | cons p rest ih =>
    intro g hps hg
    rw [List.foldl_cons]
    exact ih (addToGroups g p.1 p.2)
      (fun p' hp' => hps p' (List.mem_cons_of_mem _ hp'))
      (addToGroups_shape_inv hg (hps p (List.mem_cons_self _ _)))

lemma sampleGroups_ok_spec (shuffle : List ProcRow → List ProcRow)
    (hsh : ∀ l, (shuffle l).Perm l) (groups : List (String × List ProcRow))
    (hkey : ∀ q ∈ groups, ∀ x ∈ q.2, x.shape = q.1)
    (hlen : ∀ q ∈ groups, sizeFor q.1 * 2 ≤ q.2.length)
    (hnodup : (groups.map Prod.fst).Nodup) :
    ∃ l1 l2, sampleGroups shuffle groups = Except.ok (l1, l2) ∧
      (∀ s, l1.countP (fun x => x.shape == s) =
        if s ∈ groups.map Prod.fst then sizeFor s else 0) ∧
      (∀ s, l2.countP (fun x => x.shape == s) =
        if s ∈ groups.map Prod.fst then sizeFor s else 0) ∧
      l1.length = (groups.map fun q => sizeFor q.1).sum ∧
      l2.length = (groups.map fun q => sizeFor q.1).sum := by
  induction groups with
  | nil => exact ⟨[], [], rfl, by simp, by simp, by simp, by simp⟩
  | cons g rest ih =>
    obtain ⟨shape, entries⟩ := g
    obtain ⟨l1, l2, hok, hc1, hc2, hl1, hl2⟩ :=
      ih (fun q hq => hkey q (List.mem_cons_of_mem _ hq))
        (fun q hq => hlen q (List.mem_cons_of_mem _ hq))
        (List.nodup_cons.mp (by simpa using hnodup)).2
    have hlenH : sizeFor shape * 2 ≤ entries.length :=
      hlen (shape, entries) (List.mem_cons_self _ _)
    have hnotin : shape ∉ rest.map Prod.fst :=
      (List.nodup_cons.mp (by simpa using hnodup)).1
    have hlenSh : (shuffle entries).length = entries.length := (hsh entries).length_eq
    have hele : ∀ x ∈ shuffle entries, x.shape = shape := fun x hx =>
      hkey (shape, entries) (List.mem_cons_self _ _) x ((hsh entries).mem_iff.mp hx)
    set size := sizeFor shape with hsize
    set t1 : List ProcRow := (shuffle entries).take size with ht1
    set t2 : List ProcRow := ((shuffle entries).drop size).take size with ht2
    have ht1len : t1.length = size := by
      rw [ht1, List.length_take, hlenSh]
      exact Nat.min_eq_left (by omega)
    have ht2len : t2.length = size := by
      rw [ht2, List.length_take, List.length_drop, hlenSh]
      exact Nat.min_eq_left (by omega)
    have ht1sub : ∀ x ∈ t1, x.shape = shape := fun x hx =>
      hele x (List.take_subset _ _ hx)
    have ht2sub : ∀ x ∈ t2, x.shape = shape := fun x hx =>
      hele x (List.drop_subset _ _ (List.take_subset _ _ hx))
    have hcount : ∀ (t : List ProcRow), t.length = size → (∀ x ∈ t, x.shape = shape) →
        ∀ s, t.countP (fun x => x.shape == s) = if s = shape then size else 0 := by
      intro t htl hts s
      by_cases hs : s = shape
      · subst hs
        rw [if_pos rfl, ← htl]
        exact List.countP_eq_length.mpr fun x hx => by
          rw [beq_iff_eq]
          exact hts x hx
      · rw [if_neg hs]
        exact List.countP_eq_zero.mpr fun x hx => by
          rw [hts x hx]
          simp [beq_iff_eq]
          exact fun h => hs h.symm
    refine ⟨t1 ++ l1, t2 ++ l2, ?_, ?_, ?_, ?_, ?_⟩
    · rw [sampleGroups, if_neg (not_lt.mpr hlenH), hok]
    · intro s
      rw [List.countP_append, hcount t1 ht1len ht1sub s, hc1 s]
      by_cases hs : s = shape
      · subst hs
        rw [if_pos rfl, if_neg hnotin, if_pos (by simp)]
        omega
      · rw [if_neg hs]
        by_cases hmem : s ∈ rest.map Prod.fst
        · rw [if_pos hmem, if_pos (by simp [hmem])]
          omega
        · rw [if_neg hmem, if_neg (by simp [hs, hmem])]
    · intro s
      rw [List.countP_append, hcount t2 ht2len ht2sub s, hc2 s]
      by_cases hs : s = shape
      · subst hs
        rw [if_pos rfl, if_neg hnotin, if_pos (by simp)]
        omega
      · rw [if_neg hs]
        by_cases hmem : s ∈ rest.map Prod.fst
        · rw [if_pos hmem, if_pos (by simp [hmem])]
          omega
        · rw [if_neg hmem, if_neg (by simp [hs, hmem])]
    · rw [List.length_append, ht1len, hl1, List.map_cons, List.sum_cons]
    · rw [List.length_append, ht2len, hl2, List.map_cons, List.sum_cons]

/-- C4: when the retained rows' shape tags are exactly the eight generator
shapes and every shape group holds at least twice its draw size, the sampler
succeeds and each output list carries exactly 5 rows per coda-bearing
monosyllable shape and exactly 10 rows per disyllable shape, 60 rows in
total. -/
theorem c4_theorem (shuffle : List ProcRow → List ProcRow)
    (hsh : ∀ l, (shuffle l).Perm l) (monoRows diRows : List RawRow)
    (hkeys : ((groupByShape (procFile monoRows ++ procFile diRows)).map
      Prod.fst).Perm ALL_SHAPES)
    (hlen : ∀ q ∈ groupByShape (procFile monoRows ++ procFile diRows),
      sizeFor q.1 * 2 ≤ q.2.length) :
    ∃ l1 l2, stratifyMain shuffle monoRows diRows = Except.ok (l1, l2) ∧
      (∀ s ∈ MONO_SHAPES, l1.countP (fun x => x.shape == s) = 5 ∧
        l2.countP (fun x => x.shape == s) = 5) ∧
      (∀ s ∈ (["CVCVC", "CwVCVC", "NCVCVC", "CNVCVC"] : List String),
        l1.countP (fun x => x.shape == s) = 10 ∧
        l2.countP (fun x => x.shape == s) = 10) ∧
      l1.length = 60 ∧ l2.length = 60 := by
  have hkey : ∀ q ∈ groupByShape (procFile monoRows ++ procFile diRows),
      ∀ x ∈ q.2, x.shape = q.1 :=
    groupByShape_shape_inv (by
      intro p hp
      rcases List.mem_append.mp hp with h | h
      · exact procFile_shape p h
      · exact procFile_shape p h)
  have hnodup := (hkeys.nodup_iff).mpr (by decide)
  obtain ⟨l1, l2, hok, hc1, hc2, hl1, hl2⟩ :=
    sampleGroups_ok_spec shuffle hsh _ hkey hlen hnodup
  have hmapeq : ((groupByShape (procFile monoRows ++ procFile diRows)).map
      fun q => sizeFor q.1)
      = ((groupByShape (procFile monoRows ++ procFile diRows)).map Prod.fst).map
        sizeFor := by
    rw [List.map_map]
    rfl
  have hsum : ((groupByShape (procFile monoRows ++ procFile diRows)).map
      fun q => sizeFor q.1).sum = 60 := by
    rw [hmapeq, (hkeys.map sizeFor).sum_eq]
    decide
  refine ⟨shuffle l1, shuffle l2, ?_, ?_, ?_, ?_, ?_⟩
  · rw [stratifyMain, hok]
  · intro s hs
    have hball : s ∈ ALL_SHAPES ∧ sizeFor s = 5 :=
      (by decide : ∀ s ∈ MONO_SHAPES, s ∈ ALL_SHAPES ∧ sizeFor s = 5) s hs
    exact ⟨by rw [(hsh l1).countP_eq, hc1 s, if_pos (hkeys.mem_iff.mpr hball.1), hball.2],
      by rw [(hsh l2).countP_eq, hc2 s, if_pos (hkeys.mem_iff.mpr hball.1), hball.2]⟩
  · intro s hs
    have hball : s ∈ ALL_SHAPES ∧ sizeFor s = 10 :=
      (by decide : ∀ s ∈ (["CVCVC", "CwVCVC", "NCVCVC", "CNVCVC"] : List String),
        s ∈ ALL_SHAPES ∧ sizeFor s = 10) s hs
    exact ⟨by rw [(hsh l1).countP_eq, hc1 s, if_pos (hkeys.mem_iff.mpr hball.1), hball.2],
      by rw [(hsh l2).countP_eq, hc2 s, if_pos (hkeys.mem_iff.mpr hball.1), hball.2]⟩
  · rw [(hsh l1).length_eq, hl1, hsum]
  · rw [(hsh l2).length_eq, hl2, hsum]

/-- Concrete annotated monosyllable rows used by the C4 witness: ten retained
rows for each coda-bearing monosyllable shape. -/
def c4MonoRows : List RawRow :=
  (List.replicate 10 (RawRow.mk "p" "a" "" "" "n" "CVC" "FALSE" "")) ++
  (List.replicate 10 (RawRow.mk "p" "wa" "" "" "n" "CwVC" "FALSE" "")) ++
  (List.replicate 10 (RawRow.mk "pm" "a" "" "" "p̚" "CNVC" "FALSE" "")) ++
  (List.replicate 10 (RawRow.mk "mp" "a" "" "" "t̚" "NCVC" "FALSE" ""))

/-- Concrete annotated disyllable rows used by the C4 witness: twenty retained
rows for each disyllable shape. -/
def c4DiRows : List RawRow :=
  (List.replicate 20 (RawRow.mk "p" "a" "t" "i" "n" "CVCVC" "FALSE" "")) ++
  (List.replicate 20 (RawRow.mk "p" "wa" "t" "i" "n" "CwVCVC" "FALSE" "")) ++
  (List.replicate 20 (RawRow.mk "mp" "a" "t" "i" "n" "NCVCVC" "FALSE" "")) ++
  (List.replicate 20 (RawRow.mk "pm" "a" "t" "i" "n" "CNVCVC" "FALSE" ""))

/-- C4 witness: the hypotheses and the balanced-composition conclusion on a
concrete pair of input tables, with the identity shuffle. -/
theorem c4_witness :
    (((groupByShape (procFile c4MonoRows ++ procFile c4DiRows)).map
        Prod.fst).Perm ALL_SHAPES ∧
      ∀ q ∈ groupByShape (procFile c4MonoRows ++ procFile c4DiRows),
        sizeFor q.1 * 2 ≤ q.2.length) ∧
    ∃ l1 l2, stratifyMain id c4MonoRows c4DiRows = Except.ok (l1, l2) ∧
      (∀ s ∈ MONO_SHAPES, l1.countP (fun x => x.shape == s) = 5 ∧
        l2.countP (fun x => x.shape == s) = 5) ∧
      (∀ s ∈ (["CVCVC", "CwVCVC", "NCVCVC", "CNVCVC"] : List String),
        l1.countP (fun x => x.shape == s) = 10 ∧
        l2.countP (fun x => x.shape == s) = 10) ∧
      l1.length = 60 ∧ l2.length = 60 := by
  refine ⟨⟨by decide, by decide⟩, ?_⟩
  exact c4_theorem id (fun l => List.Perm.refl l) c4MonoRows c4DiRows
    (by decide) (by decide)

lemma addToGroups_flatMap (g : List (String × List ProcRow)) (s : String) (r : ProcRow) :
    (((addToGroups g s r).flatMap Prod.snd : List ProcRow) : Multiset ProcRow) =
      ((g.flatMap Prod.snd : List ProcRow) : Multiset ProcRow) + {r} := by
  induction g with
  | nil => simp [addToGroups]
  | cons g0 rest ih =>
    obtain ⟨s0, rs0⟩ := g0
    rw [addToGroups]
    by_cases hs : s0 = s
    · rw [if_pos hs]
      simp only [List.flatMap_cons, ← Multiset.coe_add, ← Multiset.coe_singleton]
      abel
    · rw [if_neg hs]
      simp only [List.flatMap_cons, ← Multiset.coe_add, ih]
      abel

lemma groupByShape_flatMap (pairs : List (String × ProcRow)) :
    (((groupByShape pairs).flatMap Prod.snd : List ProcRow) : Multiset ProcRow) =
      ↑(pairs.map Prod.snd) := by
  suffices h : ∀ (ps : List (String × ProcRow)) (g : List (String × List ProcRow)),
      (((ps.foldl (fun g p => addToGroups g p.1 p.2) g).flatMap Prod.snd : List ProcRow) :
        Multiset ProcRow) =
        ((g.flatMap Prod.snd : List ProcRow) : Multiset ProcRow) + ↑(ps.map Prod.snd) by
    simpa [groupByShape] using h pairs []
  intro ps
  induction ps with
  | nil => intro g; simp
  | cons p rest ih =>
    intro g
    rw [List.foldl_cons, ih (addToGroups g p.1 p.2), addToGroups_flatMap]
    simp only [List.map_cons, ← Multiset.cons_coe, ← Multiset.singleton_add]
    abel

lemma sampleGroups_sub (shuffle : List ProcRow → List ProcRow)
    (hsh : ∀ l, (shuffle l).Perm l) :
    ∀ (groups : List (String × List ProcRow)) (l1 l2 : List ProcRow),
      sampleGroups shuffle groups = Except.ok (l1, l2) →
      ((l1 ++ l2 : List ProcRow) : Multiset ProcRow) ≤ ↑(groups.flatMap Prod.snd) := by
  intro groups
  induction groups with
  | nil =>
    intro l1 l2 h
    rw [sampleGroups] at h
    simp only [Except.ok.injEq, Prod.mk.injEq] at h
    obtain ⟨rfl, rfl⟩ := h
    simp
  | cons g rest ih =>
    obtain ⟨shape, entries⟩ := g
    intro l1 l2 h
    rw [sampleGroups] at h
    by_cases hlen : entries.length < sizeFor shape * 2
    · rw [if_pos hlen] at h; cases h
    · rw [if_neg hlen] at h
      cases hrest : sampleGroups shuffle rest with
      | error e => rw [hrest] at h; cases h
      | ok pr =>
        obtain ⟨r1, r2⟩ := pr
        rw [hrest] at h
        simp only [Except.ok.injEq, Prod.mk.injEq] at h
        obtain ⟨rfl, rfl⟩ := h
        have h1 : ((List.take (sizeFor shape) (shuffle entries) : List ProcRow) :
              Multiset ProcRow) +
              ↑(List.take (sizeFor shape) (List.drop (sizeFor shape) (shuffle entries))) ≤
            (entries : Multiset ProcRow) := by
          calc ((List.take (sizeFor shape) (shuffle entries) : List ProcRow) :
                Multiset ProcRow) +
                ↑(List.take (sizeFor shape) (List.drop (sizeFor shape) (shuffle entries)))
              ≤ ↑(List.take (sizeFor shape) (shuffle entries)) +
                ↑(List.drop (sizeFor shape) (shuffle entries)) :=
                add_le_add_left
                  (Multiset.coe_le.mpr (List.take_sublist _ _).subperm) _
            _ = ↑(List.take (sizeFor shape) (shuffle entries) ++
                List.drop (sizeFor shape) (shuffle entries)) := Multiset.coe_add _ _
            _ = ↑(shuffle entries) := by rw [List.take_append_drop]
            _ = ↑entries := Multiset.coe_eq_coe.mpr (hsh entries)
        have h2 : ((r1 ++ r2 : List ProcRow) : Multiset ProcRow) ≤
            ↑(rest.flatMap Prod.snd) := ih r1 r2 hrest
        simp only [List.flatMap_cons]
        calc ((List.take (sizeFor shape) (shuffle entries) ++ r1 ++
              (List.take (sizeFor shape) (List.drop (sizeFor shape) (shuffle entries)) ++ r2) :
                List ProcRow) : Multiset ProcRow)
            = (((List.take (sizeFor shape) (shuffle entries) : List ProcRow) :
                Multiset ProcRow) +
                ↑(List.take (sizeFor shape) (List.drop (sizeFor shape) (shuffle entries)))) +
              ↑(r1 ++ r2) := by
              simp only [← Multiset.coe_add]
              abel
          _ ≤ (entries : Multiset ProcRow) + ↑(rest.flatMap Prod.snd) := add_le_add h1 h2
          _ = ↑(entries ++ rest.flatMap Prod.snd) := Multiset.coe_add _ _

/-- C5 (amended): the two slices each group contributes are disjoint as index
ranges, so no single retained row instance lands in both lists; provided the
retained rows' transcriptions are pairwise distinct, no transcription value
appears in both output lists.  (Without that distinctness the property fails:
see the counterexample.) -/
theorem c5_theorem (shuffle : List ProcRow → List ProcRow)
    (hsh : ∀ l, (shuffle l).Perm l) (monoRows diRows : List RawRow)
    (hdis : ((procFile monoRows ++ procFile diRows).map
      (fun p => p.2.transcription)).Nodup)
    (l1 l2 : List ProcRow)
    (hok : stratifyMain shuffle monoRows diRows = Except.ok (l1, l2)) :
    ∀ t, ¬(t ∈ l1.map ProcRow.transcription ∧ t ∈ l2.map ProcRow.transcription) := by
  rw [stratifyMain] at hok
  cases hsg : sampleGroups shuffle
      (groupByShape (procFile monoRows ++ procFile diRows)) with
  | error e => rw [hsg] at hok; cases hok
  | ok p =>
    obtain ⟨m1, m2⟩ := p
    rw [hsg] at hok
    simp only [Except.ok.injEq, Prod.mk.injEq] at hok
    obtain ⟨rfl, rfl⟩ := hok
    rintro t ⟨ht1, ht2⟩
    have hm1 : t ∈ m1.map ProcRow.transcription :=
      (((hsh m1).map ProcRow.transcription).mem_iff).mp ht1
    have hm2 : t ∈ m2.map ProcRow.transcription :=
      (((hsh m2).map ProcRow.transcription).mem_iff).mp ht2
    have hsub := sampleGroups_sub shuffle hsh _ m1 m2 hsg
    rw [groupByShape_flatMap] at hsub
    have hmap := Multiset.map_le_map (f := ProcRow.transcription) hsub
    have hbig : (Multiset.map ProcRow.transcription
        ↑((procFile monoRows ++ procFile diRows).map Prod.snd)).Nodup := by
      rw [Multiset.map_coe, Multiset.coe_nodup, List.map_map]
      exact hdis
    have hsmall := Multiset.nodup_of_le hmap hbig
    rw [Multiset.map_coe, Multiset.coe_nodup, List.map_append] at hsmall
    exact (List.disjoint_of_nodup_append hsmall) hm1 hm2

/-- The concrete retained rows of the C5 witness: ten "CVC" rows with ten
distinct transcriptions. -/
def c5Rows : List RawRow :=
  ["b", "c", "d", "f", "g", "h", "j", "k", "l", "q"].map fun x =>
    RawRow.mk x "a" "" "" "n" "CVC" "FALSE" ""

/-- C5 witness: the hypotheses and the disjointness conclusion on a concrete
input whose retained transcriptions are pairwise distinct, with the identity
shuffle. -/
theorem c5_witness :
    (((procFile c5Rows ++ procFile []).map (fun p => p.2.transcription)).Nodup ∧
      stratifyMain id c5Rows [] =
        Except.ok ((c5Rows.take 5).map procRow, ((c5Rows.drop 5).take 5).map procRow)) ∧
    ∀ t, ¬(t ∈ ((c5Rows.take 5).map procRow).map ProcRow.transcription ∧
      t ∈ (((c5Rows.drop 5).take 5).map procRow).map ProcRow.transcription) := by
  refine ⟨⟨by decide, by rfl⟩, ?_⟩
  exact c5_theorem id (fun l => List.Perm.refl l) c5Rows [] (by decide)
    ((c5Rows.take 5).map procRow) (((c5Rows.drop 5).take 5).map procRow) (by rfl)

/-- C5 counterexample: with duplicated retained rows (ten copies of one "CVC"
row, transcription "pan") every permutation-valid run places "pan" in both
output lists, so the claim fails as stated for runs of the sampler on inputs
that merely satisfy the sampler's own precondition. -/
theorem c5_counterexample :
    ¬ (∀ (shuffle : List ProcRow → List ProcRow), (∀ l, (shuffle l).Perm l) →
      ∀ (monoRows diRows : List RawRow) (l1 l2 : List ProcRow),
        stratifyMain shuffle monoRows diRows = Except.ok (l1, l2) →
        ∀ t, ¬(t ∈ l1.map ProcRow.transcription ∧
          t ∈ l2.map ProcRow.transcription)) := by
  intro hclaim
  exact hclaim id (fun l => List.Perm.refl l)
    (List.replicate 10 (RawRow.mk "p" "a" "" "" "n" "CVC" "FALSE" "")) []
    (List.replicate 5 (procRow (RawRow.mk "p" "a" "" "" "n" "CVC" "FALSE" "")))
    (List.replicate 5 (procRow (RawRow.mk "p" "a" "" "" "n" "CVC" "FALSE" "")))
    (by rfl) "pan" (by decide)

/-- C8: a disyllable survives the lexicon filter iff its romanization is empty
or absent from the lookup set, and the reported count is exactly the number of
suppressed entries. -/
theorem c8_theorem (lexicon : List String) (rom : Bisyllable → String)
    (entries : List Bisyllable) :
    (lexiconFilter lexicon rom entries).1 =
      entries.filter (fun e => rom e == "" || !(lexicon.contains (rom e))) ∧
    (lexiconFilter lexicon rom entries).2 =
      entries.countP (fun e => !(rom e == "") && lexicon.contains (rom e)) := by
  induction entries with
  | nil => exact ⟨rfl, rfl⟩
  | cons e rest ih =>
    simp only [lexiconFilter]
    cases h1 : (rom e == "") with
    | true =>
      have h1' : rom e = "" := by simpa using h1
      simp [List.filter_cons, List.countP_cons, h1, h1', ih.1, ih.2]
    | false =>
      have h1' : ¬ rom e = "" := by simpa using h1
      cases h2 : lexicon.contains (rom e) with
      | true =>
        have h2' : rom e ∈ lexicon := by simpa using h2
        simp [List.filter_cons, List.countP_cons, h1, h1', h2, h2', ih.1, ih.2]
      | false =>
        have h2' : rom e ∉ lexicon := by simpa using h2
        simp [List.filter_cons, List.countP_cons, h1, h1', h2, h2', ih.1, ih.2]

/-- C9 counterexample: the romanization property neither special-cases an
empty Hangul string nor catches failures of the external romanizer — with a
romanizer that fails on every input, the romanization of an empty Hangul
string is that failure, not the empty string, refuting the claim as stated. -/
theorem c9_counterexample :
    ¬ (∀ (romanizer : String → Except Unit String) (hangul : String),
      (hangul = "" → romanizationAttr romanizer hangul = Except.ok "") ∧
      (∀ e, romanizer hangul = Except.error e →
        romanizationAttr romanizer hangul = Except.ok "")) := by
  intro h
  have h1 := (h (fun _ => Except.error ()) "").1 rfl
  exact absurd h1 (by simp [romanizationAttr])

/-- C9 (amended): the romanization attribute invokes the external romanizer on
the Hangul string unconditionally — also when that string is empty — and
returns its outcome unchanged, exceptions included; a bisyllable with a
missing part has empty Hangul, and its romanization is empty exactly when the
external routine maps the empty string to an empty success. -/
theorem c9_theorem (romanizer : String → Except Unit String)
    (hangul1 hangul2 : String) :
    romanizationAttr romanizer (bisyllableHangul hangul1 hangul2) =
      romanizer (bisyllableHangul hangul1 hangul2) ∧
    ((hangul1 = "" ∨ hangul2 = "") →
      romanizationAttr romanizer (bisyllableHangul hangul1 hangul2) = romanizer "") ∧
    (romanizer "" = Except.ok "" → (hangul1 = "" ∨ hangul2 = "") →
      romanizationAttr romanizer (bisyllableHangul hangul1 hangul2) = Except.ok "") := by
  refine ⟨rfl, ?_, ?_⟩
  · intro h
    rw [romanizationAttr, bisyllableHangul, if_pos h]
  · intro hok h
    rw [romanizationAttr, bisyllableHangul, if_pos h, hok]

/-- C9 witness: the amended conclusion at a concrete romanizer that maps the
empty string to an empty success, and a bisyllable whose first part is
empty. -/
theorem c9_witness :
    (("" : String) = "" ∨ ("한" : String) = "") ∧
    (fun s => (Except.ok s : Except Unit String)) "" = Except.ok "" ∧
    romanizationAttr (fun s => (Except.ok s : Except Unit String))
      (bisyllableHangul "" "한") = Except.ok "" := by
  refine ⟨Or.inl rfl, rfl, ?_⟩
  exact (c9_theorem (fun s => (Except.ok s : Except Unit String)) "" "한").2.2 rfl
    (Or.inl rfl)
